import Mathlib

/- Shallow embedding of the Advanced Web Crawler component
   (adv_web_crawler.py): configuration, HTML extraction (parse_html),
   the breadth-first crawl loop (crawl), and the two output projections
   (get_structured_data, get_table_output).  The external libraries
   (requests, BeautifulSoup, urllib.parse) are modelled as an oracle
   environment at their call boundary: fetching is a function from URL
   to an optional response, HTML parsing of a body is represented by the
   abstract Document that BeautifulSoup would produce, and
   urlparse(u).netloc / urljoin are abstract functions of the
   environment. -/

namespace WebCrawler

/-- Parsed JSON payload returned by response.json(); not interpreted by the
crawler, which only stores it in the result record. -/
structure JsonValue where
  raw : String
deriving DecidableEq

/-- Metadata dictionary built by parse_html.  The title is an
Option String because soup.title.string is Python None when the title
element does not have a single string child (for instance an empty
title element). -/
structure Metadata where
  title : Option String
  description : String
deriving DecidableEq

/-- One entry of the results list: a Python dict that is either a JSON
record or an HTML record whose optional fields are present exactly when
the corresponding feature toggle was enabled. -/
inductive PageRecord where
  | json (url : String) (val : JsonValue)
  | html (url : String) (metadata : Option Metadata)
      (headings : Option (List (String × List String)))
      (paragraphs : Option String)
      (images : Option (List String))
      (links : Option (List String))
deriving DecidableEq

/-- The url key, present in both kinds of record. -/
def PageRecord.url : PageRecord → String
  | .json u _ => u
  | .html u _ _ _ _ _ => u

/-- The metadata key of a record, when present. -/
def PageRecord.metadataField : PageRecord → Option Metadata
  | .json _ _ => none
  | .html _ md _ _ _ _ => md

/-- The headings key of a record, when present. -/
def PageRecord.headingsField : PageRecord → Option (List (String × List String))
  | .json _ _ => none
  | .html _ _ hd _ _ _ => hd

/-- The paragraphs key of a record, when present. -/
def PageRecord.paragraphsField : PageRecord → Option String
  | .json _ _ => none
  | .html _ _ _ pg _ _ => pg

/-- Abstract view of a BeautifulSoup parse of an HTML body, at the
boundary of the library calls made by adv_web_crawler.py:
  titleTag    : soup.title (none when the document has no title element);
                the inner option is soup.title.string, which is None when
                the title element has no single string child;
  metaDesc    : soup.find("meta", attrs with name description); the inner
                option is the content attribute of that tag (none when
                the attribute is absent);
  hs i        : for i in 1..6, the list of get_text with strip=True of
                every h-i element, in document order (whitespace-trimmed
                by the library, embedded newlines possibly remaining);
  paragraphs  : get_text with strip=True of every p element, in document
                order;
  images      : the src attribute of every img element (none when the
                attribute is absent), in document order;
  anchors     : the href attribute of every anchor found by
                find_all("a", href=True), in document order. -/
structure Document where
  titleTag : Option (Option String)
  metaDesc : Option (Option String)
  hs : Nat → List String
  paragraphs : List String
  images : List (Option String)
  anchors : List String

/-- A successful HTTP response as used by the crawler: the Content-Type
header (with the empty-string default of headers.get), the result of
response.json() (none when the body does not parse as JSON), and the
BeautifulSoup view of response.text. -/
structure Response where
  contentType : String
  jsonVal : Option JsonValue
  doc : Document

/-- Oracle environment for one crawl: the library functions
urlparse(u).netloc and urljoin, the fetch_page outcome per URL (none on
any fetch failure), and the list returned by get_robots_and_sitemap. -/
structure Env where
  netloc : String → String
  urljoin : String → String → String
  fetch : String → Option Response
  sitemaps : List String

/-- Snapshot of the component inputs read by the crawl and output code. -/
structure Config where
  url : String
  user_agent : String
  max_content_length : Int
  content_type_preference : String
  include_metadata : Bool
  include_headings : Bool
  include_paragraphs : Bool
  extract_images : Bool
  extract_links : Bool
  output_format : String
  max_depth : Int
  same_domain_only : Bool
  enable_js_rendering : Bool
deriving DecidableEq

/-- Python s.replace of the one-character pattern newline by the empty
string: every newline character is removed. -/
def stripNewlines (s : String) : String :=
  String.mk (s.toList.filter (fun c => !(c = '\n')))

/-- Contiguous-sublist test on character lists. -/
def charsContain (needle : List Char) : List Char → Bool
  | [] => needle.isEmpty
  | c :: rest => needle.isPrefixOf (c :: rest) || charsContain needle rest

/-- Python substring test: needle in hay. -/
def containsSub (hay needle : String) : Bool :=
  charsContain needle.toList hay.toList

/-- Python slice s[:n] on a string, by code points; a negative n counts
from the end (stop = max 0 (len + n)). -/
def pySliceTo (s : String) (n : Int) : String :=
  String.mk (s.toList.take (if n < 0 then (s.toList.length + n).toNat else n.toNat))

/-- The truncation performed on the joined paragraph text: if its length
exceeds maxLen, keep the slice up to maxLen and append the three-dot
marker. -/
def truncEllipsis (maxLen : Int) (s : String) : String :=
  if (s.length : Int) > maxLen then pySliceTo s maxLen ++ "..." else s

/-- Embedding of WebCrawlerComponent.parse_html: builds the HTML page
record for one URL from the parsed document, honouring the feature
toggles.  uj is the urljoin function of the environment. -/
def parse_html (cfg : Config) (uj : String → String → String)
    (doc : Document) (url : String) : PageRecord :=
  let metadata : Option Metadata :=
    if cfg.include_metadata then
      some { title := match doc.titleTag with
                      | some s => s
                      | none => some ""
             description := match doc.metaDesc with
                            | some (some c) => if c = "" then "" else c
                            | _ => "" }
    else none
  let headings : Option (List (String × List String)) :=
    if cfg.include_headings then
      some ((List.range 6).map fun i =>
        ("h" ++ toString (i + 1), (doc.hs (i + 1)).map stripNewlines))
    else none
  let paragraphs : Option String :=
    if cfg.include_paragraphs then
      some (truncEllipsis cfg.max_content_length
        (String.intercalate " " (doc.paragraphs.map stripNewlines)))
    else none
  let images : Option (List String) :=
    if cfg.extract_images then
      some (doc.images.filterMap fun o =>
        match o with
        | some s => if s = "" then none else some s
        | none => none)
    else none
  let links : Option (List String) :=
    if cfg.extract_links then some (doc.anchors.map fun href => uj url href)
    else none
  PageRecord.html url metadata headings paragraphs images links

/-- State of the crawl loop.  fetched and htmlParsed are ghost traces
recording, in order, the URLs passed to fetch_page and the URLs whose
body was given to parse_html; they are write-only and never influence
control flow. -/
structure CrawlState where
  visited : List String
  queue : List (String × Nat)
  results : List PageRecord
  fetched : List String
  htmlParsed : List String
deriving DecidableEq

/-- Initial crawl state: frontier seeded with (url, 0) followed by every
sitemap URL from get_robots_and_sitemap at depth 0. -/
def initState (cfg : Config) (env : Env) : CrawlState :=
  { visited := []
    queue := (cfg.url, 0) :: env.sitemaps.map (fun s => (s, 0))
    results := []
    fetched := []
    htmlParsed := [] }

/-- The candidate links enqueued after extracting one HTML page: every
anchor href resolved with urljoin against the current URL, kept when it
passes the same-domain filter (against the netloc of the seed URL) and
is not in the visited set as updated for the current page. -/
def discoveredLinks (cfg : Config) (env : Env) (current_url : String)
    (doc : Document) (visited : List String) : List String :=
  (doc.anchors.map (fun href => env.urljoin current_url href)).filter
    (fun link =>
      decide (¬(cfg.same_domain_only = true ∧
                env.netloc link ≠ env.netloc cfg.url) ∧
              link ∉ visited))

/-- The condition on line 140 of the source: treat the response as JSON
when the preference is json, or when it is auto and the Content-Type
header contains application/json. -/
def isJsonClass (cfg : Config) (response : Response) : Prop :=
  cfg.content_type_preference = "json" ∨
  (containsSub response.contentType "application/json" = true ∧
   cfg.content_type_preference = "auto")

instance (cfg : Config) (response : Response) : Decidable (isJsonClass cfg response) := by
  unfold isJsonClass
  infer_instance

/-- One iteration of the while loop in WebCrawlerComponent.crawl, for a
nonempty frontier; the identity on an empty frontier. -/
def crawlStep (cfg : Config) (env : Env) (st : CrawlState) : CrawlState :=
  match st.queue with
  | [] => st
  | (current_url, depth) :: rest =>
    if current_url ∈ st.visited ∨ (depth : Int) > cfg.max_depth then
      { st with queue := rest }
    else
      match env.fetch current_url with
      | none => { st with queue := rest, fetched := st.fetched ++ [current_url] }
      | some response =>
        let fetched' := st.fetched ++ [current_url]
        let visited' := current_url :: st.visited
        if isJsonClass cfg response then
          match response.jsonVal with
          | some j =>
            { st with queue := rest, visited := visited', fetched := fetched'
                      results := st.results ++ [PageRecord.json current_url j] }
          | none =>
            { st with queue := rest, visited := visited', fetched := fetched' }
        else
          let parsed := parse_html cfg env.urljoin response.doc current_url
          let newEntries : List (String × Nat) :=
            if (depth : Int) < cfg.max_depth then
              (discoveredLinks cfg env current_url response.doc visited').map
                (fun link => (link, depth + 1))
            else []
          { st with queue := rest ++ newEntries, visited := visited'
                    fetched := fetched', htmlParsed := st.htmlParsed ++ [current_url]
                    results := st.results ++ [parsed] }

/-- The while loop, run for at most fuel iterations; it stops early when
the frontier is empty, so any run whose final frontier is empty computes
exactly what the unbounded source loop returns. -/
def crawlRun (cfg : Config) (env : Env) : Nat → CrawlState → CrawlState
  | 0, st => st
  | n + 1, st =>
    match st.queue with
    | [] => st
    | _ :: _ => crawlRun cfg env n (crawlStep cfg env st)

/-- Embedding of WebCrawlerComponent.crawl: the results list after
running the loop from the initial state. -/
def crawl (cfg : Config) (env : Env) (fuel : Nat) : List PageRecord :=
  (crawlRun cfg env fuel (initState cfg env)).results

/-- Python str() of the title value interpolated into the Title line of
the flat_text projection: None renders as the string None. -/
def pyShowOptStr (o : Option String) : String :=
  match o with
  | some s => s
  | none => "None"

/-- The lines accumulated by the flat_text branch of get_structured_data
for one record: Title and Description lines when the metadata key is
present, every heading text in per-record field order, then the
paragraph block.  JSON records contribute nothing. -/
def flatLinesOf (r : PageRecord) : List String :=
  match r with
  | .json _ _ => []
  | .html _ md hd pg _ _ =>
    (match md with
     | some m => ["Title: " ++ pyShowOptStr m.title, "Description: " ++ m.description]
     | none => []) ++
    (match hd with
     | some hm => (hm.map Prod.snd).flatten
     | none => []) ++
    (match pg with
     | some p => [p]
     | none => [])

/-- Output payload of get_structured_data: a text blob for flat_text,
otherwise the nested pages wrapper. -/
inductive StructuredOut where
  | text (s : String)
  | pages (rs : List PageRecord)
deriving DecidableEq

/-- Embedding of WebCrawlerComponent.get_structured_data. -/
def get_structured_data (cfg : Config) (env : Env) (fuel : Nat) : StructuredOut :=
  let results := crawl cfg env fuel
  if cfg.output_format = "flat_text" then
    StructuredOut.text (String.intercalate "\n" (results.map flatLinesOf).flatten)
  else
    StructuredOut.pages results

/-- One row of the table output: page.get of url, metadata, paragraphs
(with empty-string default) and headings. -/
structure Row where
  url : String
  metadata : Option Metadata
  paragraphs : String
  headings : Option (List (String × List String))
deriving DecidableEq

/-- The row projection applied to one record by get_table_output. -/
def rowOf (r : PageRecord) : Row :=
  match r with
  | .json u _ => { url := u, metadata := none, paragraphs := "", headings := none }
  | .html u md hd pg _ _ =>
    { url := u, metadata := md, paragraphs := pg.getD "", headings := hd }

/-- Embedding of WebCrawlerComponent.get_table_output: one row per
record, in record order, independent of the output_format setting. -/
def get_table_output (cfg : Config) (env : Env) (fuel : Nat) : List Row :=
  (crawl cfg env fuel).map rowOf

/-- Exhaustive description of what one loop iteration can do: stop on an
empty frontier, discard a visited or too-deep entry, drop a failed
fetch, take the JSON path (parse success or failure), or take the HTML
path with its optional link discovery. -/
def StepOutcome (cfg : Config) (env : Env) (st st' : CrawlState) : Prop :=
  (st.queue = [] ∧ st' = st) ∨
  ∃ u d rest, st.queue = (u, d) :: rest ∧
    (((u ∈ st.visited ∨ (d : Int) > cfg.max_depth) ∧
       st' = { st with queue := rest }) ∨
     (u ∉ st.visited ∧ ¬((d : Int) > cfg.max_depth) ∧
      ((env.fetch u = none ∧
         st' = { st with queue := rest, fetched := st.fetched ++ [u] }) ∨
       (∃ response, env.fetch u = some response ∧
        ((isJsonClass cfg response ∧
          ((∃ j, response.jsonVal = some j ∧
             st' = { st with queue := rest, visited := u :: st.visited, fetched := st.fetched ++ [u], results := st.results ++ [PageRecord.json u j] }) ∨
           (response.jsonVal = none ∧
             st' = { st with queue := rest, visited := u :: st.visited, fetched := st.fetched ++ [u] }))) ∨
         (¬ isJsonClass cfg response ∧
           st' = { st with queue := rest ++ (if (d : Int) < cfg.max_depth then (discoveredLinks cfg env u response.doc (u :: st.visited)).map (fun link => (link, d + 1)) else []), visited := u :: st.visited, fetched := st.fetched ++ [u], htmlParsed := st.htmlParsed ++ [u], results := st.results ++ [parse_html cfg env.urljoin response.doc u] }))))))

/-- Invariant used for the duplicate-result claim: result URLs are
pairwise distinct and all recorded in the visited set. -/
def ResultsInv (st : CrawlState) : Prop :=
  (st.results.map PageRecord.url).Nodup ∧
  ∀ r ∈ st.results, PageRecord.url r ∈ st.visited

/-- A URL is admissible under same-domain scoping when it is the seed,
one of the sitemap seeds, or on the seed's host. -/
def DomainOk (cfg : Config) (env : Env) (u : String) : Prop :=
  u = cfg.url ∨ u ∈ env.sitemaps ∨ env.netloc u = env.netloc cfg.url

/-- Invariant for the same-domain claim: every frontier entry and every
result URL is admissible. -/
def DomainInv (cfg : Config) (env : Env) (st : CrawlState) : Prop :=
  (∀ e ∈ st.queue, DomainOk cfg env e.1) ∧
  (∀ r ∈ st.results, DomainOk cfg env (PageRecord.url r))

/-- Invariant for the fetch accounting: every visited URL was fetched
successfully, a URL that fetches successfully is passed to the fetcher
at most once, and once it has been it is in the visited set. -/
def FetchInv (env : Env) (st : CrawlState) : Prop :=
  (∀ u ∈ st.visited, (env.fetch u).isSome = true) ∧
  (∀ u, (env.fetch u).isSome = true →
    st.fetched.count u ≤ 1 ∧ (1 ≤ st.fetched.count u → u ∈ st.visited))

/-- Python str.strip: whitespace removed from both ends. -/
def pyStrip (s : String) : String :=
  String.mk
    (((s.toList.dropWhile Char.isWhitespace).reverse.dropWhile Char.isWhitespace).reverse)

/-- The joined paragraph text the source builds before truncation: the
per-paragraph texts with their newline characters removed, joined by
single spaces (source lines 86 and 87). -/
def joinedParagraphs (doc : Document) : String :=
  String.intercalate " " (doc.paragraphs.map stripNewlines)

/-- Modelled from the claim's wording, for comparison with the code:
the trimmed texts of all paragraph elements joined by single spaces
(without the newline removal the code also performs). -/
def claimParagraphsText (doc : Document) : String :=
  String.intercalate " " (doc.paragraphs.map pyStrip)

/-- A document with no title, no meta description, no headings, no
paragraphs, no images and no anchors. -/
def emptyDoc : Document :=
  { titleTag := none, metaDesc := none, hs := fun _ => [],
    paragraphs := [], images := [], anchors := [] }

/-- An HTML response serving the given document. -/
def htmlResp (doc : Document) : Response :=
  { contentType := "text/html", jsonVal := none, doc := doc }

/-- The component's default configuration with seed http://a.com/. -/
def cfgBase : Config :=
  { url := "http://a.com/", user_agent := "LangflowWebCrawler/1.0",
    max_content_length := 10000, content_type_preference := "auto",
    include_metadata := true, include_headings := true,
    include_paragraphs := true, extract_images := false,
    extract_links := false, output_format := "structured",
    max_depth := 0, same_domain_only := true, enable_js_rendering := false }

/-- Environment whose robots.txt resolution yields one same-host sitemap
URL; the seed and the sitemap URL both serve empty HTML pages. -/
def envSitemap : Env :=
  { netloc := fun _ => "a.com", urljoin := fun _ href => href,
    fetch := fun u =>
      if u = "http://a.com/" ∨ u = "http://a.com/sitemap.xml" then
        some (htmlResp emptyDoc)
      else none,
    sitemaps := ["http://a.com/sitemap.xml"] }

/-- Environment whose robots.txt resolution yields a sitemap URL hosted
on the different host b.com. -/
def envForeignSitemap : Env :=
  { netloc := fun u => if containsSub u "b.com" then "b.com" else "a.com",
    urljoin := fun _ href => href,
    fetch := fun u =>
      if u = "http://a.com/" ∨ u = "http://b.com/x" then
        some (htmlResp emptyDoc)
      else none,
    sitemaps := ["http://b.com/x"] }

/-- Environment where the URL http://a.com/bad always fails to fetch and
is seeded twice through duplicate sitemap directives. -/
def envFailTwice : Env :=
  { netloc := fun _ => "a.com", urljoin := fun _ href => href,
    fetch := fun u =>
      if u = "http://a.com/" then some (htmlResp emptyDoc) else none,
    sitemaps := ["http://a.com/bad", "http://a.com/bad"] }

/-- A JSON response whose body parses to the payload obj. -/
def jsonResp : Response :=
  { contentType := "application/json; charset=utf-8",
    jsonVal := some { raw := "obj" }, doc := emptyDoc }

/-- Environment serving one JSON endpoint. -/
def envJson : Env :=
  { netloc := fun _ => "a.com", urljoin := fun _ href => href,
    fetch := fun u => if u = "http://a.com/api" then some jsonResp else none,
    sitemaps := [] }

/-- A crawl state about to dequeue the JSON endpoint. -/
def stJson : CrawlState :=
  { visited := [], queue := [("http://a.com/api", 0)], results := [],
    fetched := [], htmlParsed := [] }

/-- Document whose only paragraph text contains an embedded newline that
survives whitespace trimming. -/
def docNewlinePara : Document := { emptyDoc with paragraphs := ["a\nb"] }

/-- Document with a title element whose string is undefined, as happens
for an empty title element. -/
def docEmptyTitle : Document := { emptyDoc with titleTag := some none }

/-- Document with a title string. -/
def docTitled : Document := { emptyDoc with titleTag := some (some "T") }

/-- Document with one h1 text and one h3 text containing a newline. -/
def docHeadings : Document :=
  { emptyDoc with
    hs := fun i => if i = 1 then ["Hello"] else if i = 3 then ["Wo\nrld"] else [] }

/-- Document with one three-character paragraph. -/
def docAbc : Document := { emptyDoc with paragraphs := ["abc"] }

/-- crawlStep realizes one of the outcomes of StepOutcome. -/
theorem crawlStep_outcome (cfg : Config) (env : Env) (st : CrawlState) :
    StepOutcome cfg env st (crawlStep cfg env st) := by
  unfold StepOutcome
  cases hq : st.queue with
  | nil =>
    exact Or.inl ⟨rfl, by simp [crawlStep, hq]⟩
  | cons head rest =>
    obtain ⟨u, d⟩ := head
    refine Or.inr ⟨u, d, rest, rfl, ?_⟩
    by_cases hskip : u ∈ st.visited ∨ (d : Int) > cfg.max_depth
    · exact Or.inl ⟨hskip, by simp only [crawlStep, hq]; rw [if_pos hskip]⟩
    · obtain ⟨hv, hd⟩ := not_or.mp hskip
      refine Or.inr ⟨hv, hd, ?_⟩
      cases hf : env.fetch u with
      | none =>
        refine Or.inl ⟨rfl, ?_⟩
        simp only [crawlStep, hq]
        rw [if_neg hskip, hf]
      | some response =>
        refine Or.inr ⟨response, rfl, ?_⟩
        by_cases hjson : isJsonClass cfg response
        · refine Or.inl ⟨hjson, ?_⟩
          cases hjv : response.jsonVal with
          | some j =>
            refine Or.inl ⟨j, rfl, ?_⟩
            simp only [crawlStep, hq]
            rw [if_neg hskip, hf]
            simp only [if_pos hjson, hjv]
          | none =>
            refine Or.inr ⟨rfl, ?_⟩
            simp only [crawlStep, hq]
            rw [if_neg hskip, hf]
            simp only [if_pos hjson, hjv]
        · refine Or.inr ⟨hjson, ?_⟩
          simp only [crawlStep, hq]
          rw [if_neg hskip, hf]
          simp only [if_neg hjson]

/-- Any property preserved by crawlStep holds after any fuelled run. -/
theorem crawlRun_preserves (cfg : Config) (env : Env) (P : CrawlState → Prop)
    (hstep : ∀ st, P st → P (crawlStep cfg env st)) :
    ∀ (n : Nat) (st : CrawlState), P st → P (crawlRun cfg env n st) := by
  intro n
  induction n with
  | zero => intro st h; exact h
  | succ n ih =>
    intro st h
    simp only [crawlRun]
    cases hq : st.queue with
    | nil => exact h
    | cons a l => exact ih _ (hstep st h)

/-- The record built by parse_html carries the URL it was given. -/
theorem parse_html_url (cfg : Config) (uj : String → String → String)
    (doc : Document) (url : String) : (parse_html cfg uj doc url).url = url := rfl

/-- Membership in the discovered-links list means the link passed the
same-domain filter and was not in the (already updated) visited set. -/
theorem mem_discoveredLinks (cfg : Config) (env : Env) (u : String)
    (doc : Document) (visited : List String) (link : String)
    (h : link ∈ discoveredLinks cfg env u doc visited) :
    ¬(cfg.same_domain_only = true ∧ env.netloc link ≠ env.netloc cfg.url) ∧
      link ∉ visited := by
  unfold discoveredLinks at h
  rw [List.mem_filter] at h
  exact of_decide_eq_true h.2

/-- One loop iteration preserves ResultsInv. -/
theorem resultsInv_step (cfg : Config) (env : Env) (st : CrawlState)
    (h : ResultsInv st) : ResultsInv (crawlStep cfg env st) := by
  obtain ⟨hnd, hmem⟩ := h
  have append_case :
      ∀ (r : PageRecord) (u : String), PageRecord.url r = u → u ∉ st.visited →
        (((st.results ++ [r]).map PageRecord.url).Nodup ∧
         ∀ s ∈ st.results ++ [r], PageRecord.url s ∈ u :: st.visited) := by
    intro r u hru hu
    constructor
    · rw [List.map_append, List.nodup_append]
      refine ⟨hnd, by simp, ?_⟩
      intro a ha hb
      simp only [List.map_cons, List.map_nil, List.mem_singleton, hru] at hb
      subst hb
      rcases List.mem_map.mp ha with ⟨s, hs, hsu⟩
      exact hu (hsu ▸ hmem s hs)
    · intro s hs
      rcases List.mem_append.mp hs with hs | hs
      · exact List.mem_cons_of_mem _ (hmem s hs)
      · rw [List.mem_singleton.mp hs, hru]
        exact List.mem_cons_self _ _
  rcases crawlStep_outcome cfg env st with ⟨hq, hst⟩ | ⟨u, d, rest, hq, hcase⟩
  · rw [hst]; exact ⟨hnd, hmem⟩
  · rcases hcase with ⟨hskip, hst⟩ | ⟨hv, hd, hcase⟩
    · rw [hst]; exact ⟨hnd, hmem⟩
    · rcases hcase with ⟨hf, hst⟩ | ⟨response, hf, hcase⟩
      · rw [hst]; exact ⟨hnd, hmem⟩
      · rcases hcase with ⟨hjson, hcase⟩ | ⟨hjson, hst⟩
        · rcases hcase with ⟨j, hjv, hst⟩ | ⟨hjv, hst⟩
          · rw [hst]; exact append_case (PageRecord.json u j) u rfl hv
          · rw [hst]
            exact ⟨hnd, fun r hr => List.mem_cons_of_mem _ (hmem r hr)⟩
        · rw [hst]
          exact append_case (parse_html cfg env.urljoin response.doc u) u
            (parse_html_url cfg env.urljoin response.doc u) hv

/-- C4: for every crawl invocation (any configuration, any environment,
any fuel bound on the loop), no URL string appears in more than one
PageRecord of the returned result list, even when the same URL is
enqueued into the frontier multiple times before being dequeued. -/
theorem C4_no_duplicate_result_urls (cfg : Config) (env : Env) (fuel : Nat) :
    ((crawl cfg env fuel).map PageRecord.url).Nodup := by
  have h := crawlRun_preserves cfg env ResultsInv
    (fun st h => resultsInv_step cfg env st h) fuel (initState cfg env)
    ⟨by simp [initState], by simp [initState]⟩
  exact h.1

/-- With same_domain_only set, one loop iteration preserves DomainInv:
newly discovered links pass the netloc filter, and a new result's URL is
the dequeued frontier URL. -/
theorem domainInv_step (cfg : Config) (env : Env)
    (hsdo : cfg.same_domain_only = true) (st : CrawlState)
    (h : DomainInv cfg env st) : DomainInv cfg env (crawlStep cfg env st) := by
  obtain ⟨hqok, hrok⟩ := h
  rcases crawlStep_outcome cfg env st with ⟨hq, hst⟩ | ⟨u, d, rest, hq, hcase⟩
  · rw [hst]; exact ⟨hqok, hrok⟩
  · have hrest : ∀ e ∈ rest, DomainOk cfg env e.1 := by
      intro e he
      exact hqok e (hq ▸ List.mem_cons_of_mem _ he)
    have hu : DomainOk cfg env u := hqok (u, d) (hq ▸ List.mem_cons_self _ _)
    rcases hcase with ⟨hskip, hst⟩ | ⟨hv, hd, hcase⟩
    · rw [hst]; exact ⟨hrest, hrok⟩
    · rcases hcase with ⟨hf, hst⟩ | ⟨response, hf, hcase⟩
      · rw [hst]; exact ⟨hrest, hrok⟩
      · rcases hcase with ⟨hjson, hcase⟩ | ⟨hjson, hst⟩
        · rcases hcase with ⟨j, hjv, hst⟩ | ⟨hjv, hst⟩
          · rw [hst]
            refine ⟨hrest, ?_⟩
            intro r hr
            rcases List.mem_append.mp hr with hr | hr
            · exact hrok r hr
            · rw [List.mem_singleton.mp hr]
              exact hu
          · rw [hst]; exact ⟨hrest, hrok⟩
        · rw [hst]
          constructor
          · intro e he
            rcases List.mem_append.mp he with he | he
            · exact hrest e he
            · by_cases hdl : (d : Int) < cfg.max_depth
              · rw [if_pos hdl] at he
                rcases List.mem_map.mp he with ⟨link, hlink, hel⟩
                have hfil :=
                  (mem_discoveredLinks cfg env u response.doc (u :: st.visited) link hlink).1
                rw [← hel]
                right; right
                by_contra hne
                exact hfil ⟨hsdo, hne⟩
              · rw [if_neg hdl] at he
                exact absurd he (List.not_mem_nil e)
          · intro r hr
            rcases List.mem_append.mp hr with hr | hr
            · exact hrok r hr
            · rw [List.mem_singleton.mp hr, parse_html_url]
              exact hu

/-- C2 (amended): with same_domain_only = true, every PageRecord in the
result list is for the seed URL, for one of the sitemap URLs enqueued as
additional depth-0 seeds (which bypass the domain filter), or for a URL
whose host equals the seed URL's host.  Link-discovered pages always
satisfy the host condition; only the sitemap seeds escape it. -/
theorem C2_same_domain_records (cfg : Config) (env : Env) (fuel : Nat)
    (hsdo : cfg.same_domain_only = true) :
    ∀ r ∈ crawl cfg env fuel,
      PageRecord.url r = cfg.url ∨ PageRecord.url r ∈ env.sitemaps ∨
        env.netloc (PageRecord.url r) = env.netloc cfg.url := by
  have h := crawlRun_preserves cfg env (DomainInv cfg env)
    (fun st h => domainInv_step cfg env hsdo st h) fuel (initState cfg env) ?_
  · exact fun r hr => h.2 r hr
  · constructor
    · intro e he
      simp only [initState, List.mem_cons] at he
      rcases he with he | he
      · left; rw [he]
      · rcases List.mem_map.mp he with ⟨s, hs, he⟩
        right; left
        rw [← he]
        exact hs
    · intro r hr
      simp only [initState] at hr
      exact absurd hr (List.not_mem_nil r)

/-- When the depth limit is at most 0, an iteration never enqueues new
frontier entries, so the sum of produced results and pending entries
never grows. -/
theorem step_count_bound (cfg : Config) (env : Env)
    (hmd : cfg.max_depth ≤ 0) (st : CrawlState) :
    (crawlStep cfg env st).results.length + (crawlStep cfg env st).queue.length ≤
      st.results.length + st.queue.length := by
  rcases crawlStep_outcome cfg env st with ⟨hq, hst⟩ | ⟨u, d, rest, hq, hcase⟩
  · rw [hst]
  · have hqlen : st.queue.length = rest.length + 1 := by rw [hq]; rfl
    rcases hcase with ⟨hskip, hst⟩ | ⟨hv, hd, hcase⟩
    · rw [hst]; simp only [hqlen]; omega
    · rcases hcase with ⟨hf, hst⟩ | ⟨response, hf, hcase⟩
      · rw [hst]; simp only [hqlen]; omega
      · rcases hcase with ⟨hjson, hcase⟩ | ⟨hjson, hst⟩
        · rcases hcase with ⟨j, hjv, hst⟩ | ⟨hjv, hst⟩
          · rw [hst]
            simp only [List.length_append, List.length_singleton, hqlen]
            omega
          · rw [hst]; simp only [hqlen]; omega
        · rw [hst]
          have hdl : ¬((d : Int) < cfg.max_depth) := by
            have h0 : (0 : Int) ≤ (d : Int) := Int.natCast_nonneg d
            omega
          rw [if_neg hdl]
          simp only [List.length_append, List.length_singleton, List.length_nil, hqlen]
          omega

/-- C1 (amended): for a crawl with max_depth = 0, the result list has at
most 1 + (number of resolved sitemap URLs) entries: the seed plus the
sitemap URLs are all enqueued at depth 0 and no further entry is ever
enqueued.  In particular, when sitemap resolution returns nothing, the
result list has at most one entry.  The original claim's bound of one
entry regardless of the sitemap resolution fails (see the
counterexample). -/
theorem C1_depth_zero_bound (cfg : Config) (env : Env) (fuel : Nat)
    (hmd : cfg.max_depth = 0) :
    (crawl cfg env fuel).length ≤ 1 + env.sitemaps.length := by
  have h := crawlRun_preserves cfg env
    (fun st => st.results.length + st.queue.length ≤ 1 + env.sitemaps.length)
    (fun st h =>
      le_trans (step_count_bound cfg env (le_of_eq hmd) st) h)
    fuel (initState cfg env) ?_
  · exact le_trans (Nat.le_add_right _ _) h
  · simp only [initState, List.length_cons, List.length_map, List.length_nil]
    omega

/-- C8: with a negative max_depth, every frontier entry (all at depth 0
or deeper) fails the depth check, so nothing is ever fetched and the
result list stays empty. -/
theorem C8_negative_depth_empty (cfg : Config) (env : Env) (fuel : Nat)
    (hmd : cfg.max_depth < 0) :
    crawl cfg env fuel = [] ∧
      (crawlRun cfg env fuel (initState cfg env)).fetched = [] := by
  have hstep : ∀ st, (st.results = [] ∧ st.fetched = []) →
      ((crawlStep cfg env st).results = [] ∧ (crawlStep cfg env st).fetched = []) := by
    intro st h
    rcases crawlStep_outcome cfg env st with ⟨hq, hst⟩ | ⟨u, d, rest, hq, hcase⟩
    · rw [hst]; exact h
    · rcases hcase with ⟨hskip, hst⟩ | ⟨hv, hd, hcase⟩
      · rw [hst]; exact h
      · exfalso
        have h0 : (0 : Int) ≤ (d : Int) := Int.natCast_nonneg d
        omega
  have h := crawlRun_preserves cfg env
    (fun st => st.results = [] ∧ st.fetched = []) hstep fuel (initState cfg env)
    ⟨rfl, rfl⟩
  exact ⟨h.1, h.2⟩

/-- Appending one element changes an occurrence count by at most one. -/
theorem count_append_singleton (l : List String) (a v : String) :
    (l ++ [a]).count v = l.count v + if v = a then 1 else 0 := by
  rw [List.count_append]
  by_cases hva : v = a
  · subst hva; simp
  · simp [List.count_singleton', hva]

/-- One loop iteration preserves FetchInv. -/
theorem fetchInv_step (cfg : Config) (env : Env) (st : CrawlState)
    (h : FetchInv env st) : FetchInv env (crawlStep cfg env st) := by
  obtain ⟨hvis, hcnt⟩ := h
  have succ_case :
      ∀ (u : String), u ∉ st.visited → (env.fetch u).isSome = true →
        (∀ v ∈ u :: st.visited, (env.fetch v).isSome = true) ∧
        (∀ v, (env.fetch v).isSome = true →
          (st.fetched ++ [u]).count v ≤ 1 ∧
          (1 ≤ (st.fetched ++ [u]).count v → v ∈ u :: st.visited)) := by
    intro u hu hsome
    constructor
    · intro v hv
      rcases List.mem_cons.mp hv with hv | hv
      · rw [hv]; exact hsome
      · exact hvis v hv
    · intro v hvs
      rw [count_append_singleton]
      by_cases hvu : v = u
      · subst hvu
        have h0 : st.fetched.count v = 0 := by
          rcases hcnt v hvs with ⟨hle, himp⟩
          by_contra hne
          exact hu (himp (Nat.one_le_iff_ne_zero.mpr hne))
        rw [h0, if_pos rfl]
        exact ⟨le_refl 1, fun _ => List.mem_cons_self _ _⟩
      · rw [if_neg hvu]
        rcases hcnt v hvs with ⟨hle, himp⟩
        exact ⟨by omega, fun h1 => List.mem_cons_of_mem _ (himp (by omega))⟩
  rcases crawlStep_outcome cfg env st with ⟨hq, hst⟩ | ⟨u, d, rest, hq, hcase⟩
  · rw [hst]; exact ⟨hvis, hcnt⟩
  · rcases hcase with ⟨hskip, hst⟩ | ⟨hv, hd, hcase⟩
    · rw [hst]; exact ⟨hvis, hcnt⟩
    · rcases hcase with ⟨hf, hst⟩ | ⟨response, hf, hcase⟩
      · rw [hst]
        refine ⟨hvis, ?_⟩
        intro v hvs
        rw [count_append_singleton]
        have hvu : ¬ v = u := by
          intro hvu
          rw [hvu, hf] at hvs
          exact absurd hvs (by simp)
        rw [if_neg hvu]
        rcases hcnt v hvs with ⟨hle, himp⟩
        exact ⟨by omega, fun h1 => himp (by omega)⟩
      · have hsome : (env.fetch u).isSome = true := by rw [hf]; rfl
        rcases hcase with ⟨hjson, hcase⟩ | ⟨hjson, hst⟩
        · rcases hcase with ⟨j, hjv, hst⟩ | ⟨hjv, hst⟩
          · rw [hst]; exact succ_case u hv hsome
          · rw [hst]; exact succ_case u hv hsome
        · rw [hst]; exact succ_case u hv hsome

/-- C3 (amended): a URL is added to the visited set only after a fetch
succeeds for it, not before the fetcher is invoked.  Hence a URL whose
fetch always fails is never in the visited set (and can be fetched again
if it is dequeued again); a URL that fetches successfully is passed to
the fetcher at most once per crawl. -/
theorem C3_visited_only_on_success (cfg : Config) (env : Env) (fuel : Nat)
    (u : String) :
    (env.fetch u = none →
      u ∉ (crawlRun cfg env fuel (initState cfg env)).visited) ∧
    ((env.fetch u).isSome = true →
      (crawlRun cfg env fuel (initState cfg env)).fetched.count u ≤ 1) := by
  have h := crawlRun_preserves cfg env (FetchInv env)
    (fun st h => fetchInv_step cfg env st h) fuel (initState cfg env) ?_
  · constructor
    · intro hnone hmem
      have hs := h.1 u hmem
      rw [hnone] at hs
      exact absurd hs (by simp)
    · intro hsome
      exact (h.2 u hsome).1
  · constructor
    · intro v hv
      exact absurd hv (List.not_mem_nil v)
    · intro v hvs
      refine ⟨by simp [initState], ?_⟩
      intro h1
      exact absurd h1 (by simp [initState])

/-- C1's counterexample: with max_depth = 0 and a sitemap resolution
returning one URL, the finished crawl (empty final frontier) produced
two result entries, not at most one. -/
theorem C1_counterexample :
    cfgBase.max_depth = 0 ∧
    (crawlRun cfgBase envSitemap 5 (initState cfgBase envSitemap)).queue = [] ∧
    (crawl cfgBase envSitemap 5).length = 2 := by decide

/-- C1 witness. -/
theorem C1_witness :
    (crawl cfgBase envSitemap 5).length ≤ 1 + envSitemap.sitemaps.length :=
  C1_depth_zero_bound cfgBase envSitemap 5 rfl

/-- C2's counterexample: with same_domain_only = true and a sitemap URL
on host b.com, the finished crawl produced a PageRecord whose URL's host
differs from the seed host. -/
theorem C2_counterexample :
    cfgBase.same_domain_only = true ∧
    (crawlRun cfgBase envForeignSitemap 5 (initState cfgBase envForeignSitemap)).queue = [] ∧
    (crawl cfgBase envForeignSitemap 5).map PageRecord.url =
      ["http://a.com/", "http://b.com/x"] ∧
    envForeignSitemap.netloc "http://b.com/x" ≠ envForeignSitemap.netloc cfgBase.url := by
  decide

/-- C2 witness. -/
theorem C2_witness :
    PageRecord.url ((crawl cfgBase envSitemap 5).getD 0 (PageRecord.json "" { raw := "" })) = cfgBase.url ∨
    PageRecord.url ((crawl cfgBase envSitemap 5).getD 0 (PageRecord.json "" { raw := "" })) ∈ envSitemap.sitemaps ∨
    envSitemap.netloc (PageRecord.url ((crawl cfgBase envSitemap 5).getD 0 (PageRecord.json "" { raw := "" }))) =
      envSitemap.netloc cfgBase.url :=
  C2_same_domain_records cfgBase envSitemap 5 rfl _ (by decide)

/-- C3's counterexample: the URL http://a.com/bad fails to fetch, yet it
is not in the visited set after the finished crawl, and it was passed to
the fetcher twice (it was enqueued twice), contradicting both the
visited-before-fetch claim and the permanent-skip claim. -/
theorem C3_counterexample :
    (crawlRun cfgBase envFailTwice 5 (initState cfgBase envFailTwice)).queue = [] ∧
    (envFailTwice.fetch "http://a.com/bad").isNone = true ∧
    (crawlRun cfgBase envFailTwice 5 (initState cfgBase envFailTwice)).fetched.count
      "http://a.com/bad" = 2 ∧
    "http://a.com/bad" ∉ (crawlRun cfgBase envFailTwice 5 (initState cfgBase envFailTwice)).visited := by
  decide

/-- C3 witness. -/
theorem C3_witness :
    "http://a.com/bad" ∉ (crawlRun cfgBase envFailTwice 9 (initState cfgBase envFailTwice)).visited ∧
    (crawlRun cfgBase envFailTwice 9 (initState cfgBase envFailTwice)).fetched.count
      "http://a.com/" ≤ 1 :=
  ⟨(C3_visited_only_on_success cfgBase envFailTwice 9 "http://a.com/bad").1 rfl,
   (C3_visited_only_on_success cfgBase envFailTwice 9 "http://a.com/").2 rfl⟩

/-- C8 witness. -/
theorem C8_witness :
    crawl { cfgBase with max_depth := -1 } envSitemap 7 = [] ∧
    (crawlRun { cfgBase with max_depth := -1 } envSitemap 7
      (initState { cfgBase with max_depth := -1 } envSitemap)).fetched = [] :=
  C8_negative_depth_empty { cfgBase with max_depth := -1 } envSitemap 7 (by decide)

/-- C6: for a dequeued URL classified as JSON (preference json, or auto
with a Content-Type containing application/json): on JSON parse success
exactly the record with the url and json keys is appended, the URL is
marked visited, and neither link discovery nor HTML parsing happens
(the frontier becomes the remaining entries and the htmlParsed trace is
unchanged); on parse failure no record is appended, no HTML parsing is
attempted, and the loop continues with the next frontier entry. -/
theorem C6_json_path (cfg : Config) (env : Env) (st : CrawlState)
    (u : String) (d : Nat) (rest : List (String × Nat)) (response : Response)
    (hq : st.queue = (u, d) :: rest) (hv : u ∉ st.visited)
    (hd : ¬((d : Int) > cfg.max_depth)) (hf : env.fetch u = some response)
    (hjson : isJsonClass cfg response) :
    (∀ j, response.jsonVal = some j →
      crawlStep cfg env st =
        { st with queue := rest, visited := u :: st.visited, fetched := st.fetched ++ [u], results := st.results ++ [PageRecord.json u j] }) ∧
    (response.jsonVal = none →
      crawlStep cfg env st =
        { st with queue := rest, visited := u :: st.visited, fetched := st.fetched ++ [u] }) := by
  constructor
  · intro j hjv
    simp only [crawlStep, hq]
    rw [if_neg (not_or.mpr ⟨hv, hd⟩), hf]
    simp only [if_pos hjson, hjv]
  · intro hjv
    simp only [crawlStep, hq]
    rw [if_neg (not_or.mpr ⟨hv, hd⟩), hf]
    simp only [if_pos hjson, hjv]

/-- C6 witness. -/
theorem C6_witness :
    crawlStep cfgBase envJson stJson =
      { stJson with queue := [], visited := ["http://a.com/api"],
                    fetched := ["http://a.com/api"],
                    results := [PageRecord.json "http://a.com/api" { raw := "obj" }] } :=
  (C6_json_path cfgBase envJson stJson "http://a.com/api" 0 [] jsonResp rfl
    (by decide) (by decide) rfl (by decide)).1 { raw := "obj" } rfl

/-- The paragraphs field computed by parse_html when the toggle is on:
the newline-stripped texts joined by spaces, then truncated. -/
theorem parse_html_paragraphs (cfg : Config) (uj : String → String → String)
    (doc : Document) (url : String) (hp : cfg.include_paragraphs = true) :
    (parse_html cfg uj doc url).paragraphsField =
      some (truncEllipsis cfg.max_content_length (joinedParagraphs doc)) := by
  unfold parse_html PageRecord.paragraphsField joinedParagraphs
  simp [hp]

/-- C5 (amended): with paragraph extraction on and a non-negative
max_content_length, the paragraphs field is the per-paragraph trimmed
texts with their embedded newline characters removed, joined by single
spaces, returned whole when its length is within the limit and otherwise
cut at the limit with the three-dot marker appended; the field's length
never exceeds max_content_length + 3.  (The original claim omits the
newline removal; see the counterexample.) -/
theorem C5_truncation_law (cfg : Config) (uj : String → String → String)
    (doc : Document) (url : String)
    (hp : cfg.include_paragraphs = true) (hm : 0 ≤ cfg.max_content_length) :
    (((joinedParagraphs doc).length : Int) ≤ cfg.max_content_length →
      (parse_html cfg uj doc url).paragraphsField = some (joinedParagraphs doc)) ∧
    (cfg.max_content_length < ((joinedParagraphs doc).length : Int) →
      (parse_html cfg uj doc url).paragraphsField =
        some (String.mk ((joinedParagraphs doc).toList.take cfg.max_content_length.toNat) ++ "...")) ∧
    (∀ p, (parse_html cfg uj doc url).paragraphsField = some p →
      (p.length : Int) ≤ cfg.max_content_length + 3) := by
  have hfield := parse_html_paragraphs cfg uj doc url hp
  refine ⟨?_, ?_, ?_⟩
  · intro hle
    rw [hfield]
    unfold truncEllipsis
    rw [if_neg (not_lt.mpr hle)]
  · intro hgt
    rw [hfield]
    unfold truncEllipsis pySliceTo
    rw [if_pos hgt, if_neg (not_lt.mpr hm)]
  · intro p hpeq
    rw [hfield] at hpeq
    obtain rfl := (Option.some.inj hpeq).symm
    unfold truncEllipsis
    by_cases hgt : ((joinedParagraphs doc).length : Int) > cfg.max_content_length
    · rw [if_pos hgt]
      unfold pySliceTo
      rw [if_neg (not_lt.mpr hm)]
      rw [String.length_append]
      have h1 : (String.mk ((joinedParagraphs doc).toList.take cfg.max_content_length.toNat)).length =
          min cfg.max_content_length.toNat (joinedParagraphs doc).toList.length :=
        List.length_take _ _
      have h2 : ("..." : String).length = 3 := rfl
      have h3 : (joinedParagraphs doc).toList.length = (joinedParagraphs doc).length := rfl
      rw [h1, h2, h3]
      omega
    · rw [if_neg hgt]
      have hle := not_lt.mp hgt
      omega

/-- C5's counterexample: a paragraph whose trimmed text keeps an inner
newline.  The concatenation of the trimmed texts is short enough that no
truncation happens, yet the field differs from that concatenation: the
code also deletes the newline. -/
theorem C5_counterexample :
    cfgBase.include_paragraphs = true ∧
    (0 : Int) ≤ cfgBase.max_content_length ∧
    ((claimParagraphsText docNewlinePara).length : Int) ≤ cfgBase.max_content_length ∧
    (parse_html cfgBase (fun _ href => href) docNewlinePara "http://a.com/").paragraphsField =
      some "ab" ∧
    some "ab" ≠ some (claimParagraphsText docNewlinePara) := by decide

/-- C5 witness: an untruncated instance and a truncated instance. -/
theorem C5_witness :
    (parse_html cfgBase (fun _ href => href) docNewlinePara "http://a.com/").paragraphsField =
      some (joinedParagraphs docNewlinePara) ∧
    (parse_html { cfgBase with max_content_length := 1 } (fun _ href => href) docAbc "http://a.com/").paragraphsField =
      some (String.mk ((joinedParagraphs docAbc).toList.take 1) ++ "...") :=
  ⟨(C5_truncation_law cfgBase (fun _ href => href) docNewlinePara "http://a.com/" rfl
      (by decide)).1 (by decide),
   (C5_truncation_law { cfgBase with max_content_length := 1 } (fun _ href => href) docAbc
      "http://a.com/" rfl (by decide)).2.1 (by decide)⟩

/-- The metadata field computed by parse_html when the toggle is on. -/
theorem parse_html_metadata (cfg : Config) (uj : String → String → String)
    (doc : Document) (url : String) (hmeta : cfg.include_metadata = true) :
    (parse_html cfg uj doc url).metadataField =
      some { title := match doc.titleTag with
                      | some s => s
                      | none => some ""
             description := match doc.metaDesc with
                            | some (some c) => if c = "" then "" else c
                            | _ => "" } := by
  unfold parse_html PageRecord.metadataField
  simp [hmeta]

/-- C7 (amended): with metadata extraction on, the title field is the
title element's string when it has one, the empty string when the
document has no title element, and Python None when a title element is
present but its string is undefined (for instance an empty title) — so
the field is not always a string.  (The original claim's never-None part
fails; see the counterexample.) -/
theorem C7_title_field (cfg : Config) (uj : String → String → String)
    (doc : Document) (url : String) (hmeta : cfg.include_metadata = true) :
    (doc.titleTag = none →
      ((parse_html cfg uj doc url).metadataField).map Metadata.title = some (some "")) ∧
    (∀ s, doc.titleTag = some (some s) →
      ((parse_html cfg uj doc url).metadataField).map Metadata.title = some (some s)) ∧
    (doc.titleTag = some none →
      ((parse_html cfg uj doc url).metadataField).map Metadata.title = some none) := by
  have hfield := parse_html_metadata cfg uj doc url hmeta
  refine ⟨?_, ?_, ?_⟩
  · intro ht; rw [hfield, ht]; rfl
  · intro s ht; rw [hfield, ht]; rfl
  · intro ht; rw [hfield, ht]; rfl

/-- C7's counterexample: a document with a title element whose string is
undefined (empty title element) yields a metadata title of None, not the
empty string. -/
theorem C7_counterexample :
    cfgBase.include_metadata = true ∧
    ((parse_html cfgBase (fun _ href => href) docEmptyTitle "http://a.com/").metadataField).map
      Metadata.title = some none := by decide

/-- C7 witness. -/
theorem C7_witness :
    ((parse_html cfgBase (fun _ href => href) docTitled "http://a.com/").metadataField).map
      Metadata.title = some (some "T") :=
  (C7_title_field cfgBase (fun _ href => href) docTitled "http://a.com/" rfl).2.1 "T" rfl

/-- The headings field computed by parse_html when the toggle is on. -/
theorem parse_html_headings (cfg : Config) (uj : String → String → String)
    (doc : Document) (url : String) (hh : cfg.include_headings = true) :
    (parse_html cfg uj doc url).headingsField =
      some ((List.range 6).map fun i =>
        ("h" ++ toString (i + 1), (doc.hs (i + 1)).map stripNewlines)) := by
  unfold parse_html PageRecord.headingsField
  simp [hh]

/-- C9: with heading extraction on, the headings field holds exactly the
six keys h1 through h6, in that order, each one always present and
mapped to that level's heading texts (newline-stripped, in document
order), possibly the empty list. -/
theorem C9_headings_shape (cfg : Config) (uj : String → String → String)
    (doc : Document) (url : String) (hh : cfg.include_headings = true) :
    ((parse_html cfg uj doc url).headingsField).map (fun hm => hm.map Prod.fst) =
      some ["h1", "h2", "h3", "h4", "h5", "h6"] ∧
    ∀ i, i < 6 →
      ((parse_html cfg uj doc url).headingsField).map (fun hm => hm.getD i ("", [])) =
        some ("h" ++ toString (i + 1), (doc.hs (i + 1)).map stripNewlines) := by
  have hfield := parse_html_headings cfg uj doc url hh
  constructor
  · rw [hfield]
    rfl
  · intro i hi
    rw [hfield]
    interval_cases i <;> rfl

/-- C9 witness. -/
theorem C9_witness :
    ((parse_html cfgBase (fun _ href => href) docHeadings "http://a.com/").headingsField).map
      (fun hm => hm.map Prod.fst) = some ["h1", "h2", "h3", "h4", "h5", "h6"] :=
  (C9_headings_shape cfgBase (fun _ href => href) docHeadings "http://a.com/" rfl).1

/-- Changing only the output_format leaves every step of the crawl loop
unchanged: the loop never reads that field. -/
theorem crawlRun_ignores_output_format (cfg : Config) (env : Env) (f : String) :
    ∀ (n : Nat) (st : CrawlState),
      crawlRun { cfg with output_format := f } env n st = crawlRun cfg env n st := by
  intro n
  induction n with
  | zero => intro st; rfl
  | succ n ih =>
    intro st
    cases hq : st.queue with
    | nil => simp only [crawlRun, hq]
    | cons a l =>
      simp only [crawlRun, hq]
      rw [show crawlStep { cfg with output_format := f } env st = crawlStep cfg env st from rfl]
      exact ih _

/-- The crawl result does not depend on the output_format setting. -/
theorem crawl_ignores_output_format (cfg : Config) (env : Env) (f : String) (fuel : Nat) :
    crawl { cfg with output_format := f } env fuel = crawl cfg env fuel := by
  unfold crawl
  rw [show initState { cfg with output_format := f } env = initState cfg env from rfl]
  rw [crawlRun_ignores_output_format]

/-- C10: the output_format setting only distinguishes flat_text: with
table, get_structured_data returns the same nested pages wrapper as with
structured; get_table_output always produces the tabular row projection
(url, metadata, paragraphs, headings) whatever the output_format, one
row per record, and a JSON record's row has None metadata, None headings
and an empty paragraphs string. -/
theorem C10_output_format_shapes (cfg : Config) (env : Env) (fuel : Nat) :
    get_structured_data { cfg with output_format := "table" } env fuel =
      StructuredOut.pages (crawl cfg env fuel) ∧
    get_structured_data { cfg with output_format := "structured" } env fuel =
      StructuredOut.pages (crawl cfg env fuel) ∧
    (∀ f, get_table_output { cfg with output_format := f } env fuel =
      (crawl cfg env fuel).map rowOf) ∧
    (∀ (u : String) (j : JsonValue), rowOf (PageRecord.json u j) =
      { url := u, metadata := none, paragraphs := "", headings := none }) := by
  refine ⟨?_, ?_, ?_, ?_⟩
  · have hne : ({ cfg with output_format := "table" } : Config).output_format ≠ "flat_text" := by
      have h : ("table" : String) ≠ "flat_text" := by decide
      exact h
    unfold get_structured_data
    rw [if_neg hne, crawl_ignores_output_format]
  · have hne : ({ cfg with output_format := "structured" } : Config).output_format ≠ "flat_text" := by
      have h : ("structured" : String) ≠ "flat_text" := by decide
      exact h
    unfold get_structured_data
    rw [if_neg hne, crawl_ignores_output_format]
  · intro f
    unfold get_table_output
    rw [crawl_ignores_output_format]
  · intro u j
    rfl

end WebCrawler
